import Mathlib

/-!
# Verification of the LitClockTypewriter core (src/typewriter.py)

Shallow embedding of the mode state machine, command matcher, quote-text
sanitizer and layout pipeline of `src/typewriter.py`, together with proofs
of the specification claims.

Python strings are modelled as `List Char`; machine integers as `Nat`/`Int`.
-/

set_option autoImplicit false

namespace Typewriter

/-- Python's `\s` / `str.strip()` whitespace class, restricted to the ASCII
whitespace characters (`' '`, `'\t'`, `'\n'`, `'\r'`, `'\x0b'`, `'\x0c'`),
which is the same set as CPython's `string.whitespace`. -/
def isPySpace (c : Char) : Bool :=
  c = ' ' || c = '\t' || c = '\n' || c = '\r' || c = '\x0b' || c = '\x0c'

/-- The two operating modes of the application (`self.mode` is the string
`"clock"` or `"typewriter"` in the source). -/
inductive Mode where
  | clock
  | typewriter
deriving DecidableEq, Repr

/-- The mutable in-memory state of `TypewriterApp` that the claims are about:
`self.mode`, `self.command_buffer`, `self.text`, `self.y_offset`,
`self.clock_quotes` (`TypewriterApp.__init__`, src/typewriter.py lines 191-196). -/
structure TWState where
  mode : Mode
  command_buffer : List Char
  text : List Char
  y_offset : Int
  clock_quotes : List (List Char)
deriving DecidableEq, Repr

/-- `START_Y_OFFSET = 150` (src/typewriter.py line 56). -/
def START_Y_OFFSET : Int := 150

/-- `LINE_LENGTH = 45` (src/typewriter.py line 50). -/
def LINE_LENGTH : Nat := 45

/-- The literal `';clock'` that the command matcher looks for
(src/typewriter.py line 328). -/
def semicolonClock : List Char := ";clock".data

/-- The buffer-capping step `if len(self.command_buffer) > 6:
self.command_buffer = self.command_buffer[-6:]` (src/typewriter.py
lines 324-325): keep only the most recent 6 characters. -/
def trim6 (l : List Char) : List Char :=
  if l.length > 6 then l.drop (l.length - 6) else l

/-- Python `str.endswith`: `suf` is a suffix of `l`. -/
def endsWithL (l suf : List Char) : Bool :=
  decide (suf <:+ l)

/-- The command buffer after a keystroke `key`:
`self.command_buffer += key` followed by the cap to the last 6 characters
(src/typewriter.py lines 323-325). -/
def newBuffer (buf k : List Char) : List Char :=
  trim6 (buf ++ k)

/-- The `;clock` detection `self.command_buffer.endswith(';clock')` applied to
the already-updated buffer (src/typewriter.py line 328). -/
def commandFires (buf k : List Char) : Bool :=
  endsWithL (newBuffer buf k) semicolonClock

/-- The `match key` block of `TypewriterApp._process_typewriter_key`
(src/typewriter.py lines 343-351): `'space'` appends `' '`, `'backspace'`
drops the last character (`self.text[:-1]`, a no-op on the empty string),
`'enter'` appends `' \n '`, and anything else is appended verbatim. -/
def applyTypewriterKey (k : List Char) (t : List Char) : List Char :=
  if k = "space".data then t ++ [' ']
  else if k = "backspace".data then t.dropLast
  else if k = "enter".data then t ++ [' ', '\n', ' ']
  else t ++ k

/-- The state effect of `TypewriterApp._render_typewriter` (src/typewriter.py
lines 360-366): `self.y_offset = self.y_offset - math.floor(len(self.text)*0.007)`.
`math.floor(n * 0.00700)` is modelled exactly as `⌊7·n/1000⌋ = (7*n)/1000` in
`Nat`; the two agree for every text length the program can reach.  The actual
drawing and the handoff to the e-paper display are external I/O; the returned
`Bool` records whether that handoff raised `TimeoutError`. -/
def renderTypewriter (timeout : Bool) (s : TWState) : TWState × Bool :=
  ({ s with y_offset := s.y_offset - (((7 * s.text.length) / 1000 : Nat) : Int) }, timeout)

/-- `TypewriterApp._process_typewriter_key` (src/typewriter.py lines 336-358):
apply the key edit to `self.text`, then render; a `TimeoutError` from the
render is caught and only logged (`print("Display busy, keystroke buffered")`),
so the state outcome is the first component either way. -/
def processTypewriterKey (timeout : Bool) (k : List Char) (s : TWState) : TWState :=
  (renderTypewriter timeout { s with text := applyTypewriterKey k s.text }).1

section Sanitizer

/-- Parse the regex fragment `\d{1,2}:` at the head of the list (with the
backtracking of the greedy `\d{1,2}` made explicit: two digits are taken when
they are followed by `':'`, otherwise one).  Returns the remainder after the
colon. -/
def parseHourColon : List Char → Option (List Char)
  | d1 :: d2 :: c3 :: rest =>
    if d1.isDigit then
      if d2.isDigit then (if c3 = ':' then some rest else none)
      else if d2 = ':' then some (c3 :: rest)
      else none
    else none
  | [d1, d2] => if d1.isDigit && d2 = ':' then some [] else none
  | _ => none

/-- Parse exactly two digits (`\d{2}`); returns the remainder. -/
def parse2D : List Char → Option (List Char)
  | a :: b :: rest => if a.isDigit && b.isDigit then some rest else none
  | _ => none

/-- Match of `\s+\d{1,2}:\d{2}:\d{2}\s+` (src/typewriter.py line 119) at the
head of `l`; returns the number of characters the match consumes. -/
def matchTs (l : List Char) : Option Nat :=
  if (l.takeWhile isPySpace).isEmpty then none else
  match parseHourColon (l.drop (l.takeWhile isPySpace).length) with
  | none => none
  | some r2 =>
    match parse2D r2 with
    | none => none
    | some r3 =>
      match r3 with
      | ':' :: r4 =>
        match parse2D r4 with
        | none => none
        | some r5 =>
          if (r5.takeWhile isPySpace).isEmpty then none
          else some (l.length - (r5.length - (r5.takeWhile isPySpace).length))
      | _ => none

/-- Match of `\s+\d{1,2}:\d{2}\s*[AP]M(?=\s|$)` (src/typewriter.py line 124)
at the head of `l`; the lookahead is checked but not consumed. -/
def matchAmPm (l : List Char) : Option Nat :=
  if (l.takeWhile isPySpace).isEmpty then none else
  match parseHourColon (l.drop (l.takeWhile isPySpace).length) with
  | none => none
  | some r2 =>
    match parse2D r2 with
    | none => none
    | some r3 =>
      match r3.drop (r3.takeWhile isPySpace).length with
      | a :: 'M' :: r5 =>
        if a = 'A' || a = 'P' then
          match r5 with
          | [] => some (l.length - r5.length)
          | c :: _ => if isPySpace c then some (l.length - r5.length) else none
        else none
      | _ => none

/-- Match of the anchored `^\s*\d{1,2}:\d{2}\s*[AP]M\s*` (src/typewriter.py
line 127) at the start of `l`; returns the number of consumed characters. -/
def matchStart (l : List Char) : Option Nat :=
  match parseHourColon (l.drop (l.takeWhile isPySpace).length) with
  | none => none
  | some r2 =>
    match parse2D r2 with
    | none => none
    | some r3 =>
      match r3.drop (r3.takeWhile isPySpace).length with
      | a :: 'M' :: r5 =>
        if a = 'A' || a = 'P' then
          some (l.length - (r5.length - (r5.takeWhile isPySpace).length))
        else none
      | _ => none

/-- One left-to-right pass of `re.sub(r'<[^>]+>', ' ', text)` (src/typewriter.py
line 115), fuelled so that every recursive call consumes input.  At a `'<'`
the engine matches up to the first later `'>'` provided at least one character
lies between, replaces the match with `' '` and resumes after it. -/
def subTagsF : Nat → List Char → List Char
  | 0, l => l
  | _ + 1, [] => []
  | f + 1, c :: cs =>
    if c = '<' then
      match cs.findIdx? (fun d => d = '>') with
      | some i => if i = 0 then '<' :: subTagsF f cs else ' ' :: subTagsF f (cs.drop (i + 1))
      | none => '<' :: subTagsF f cs
    else c :: subTagsF f cs

/-- `re.sub(r'<[^>]+>', ' ', text)` with adequate fuel. -/
def subTags (l : List Char) : List Char :=
  subTagsF l.length l

/-- One pass of `re.sub(r'\s+\d{1,2}:\d{2}:\d{2}\s+', ' ', text)`
(src/typewriter.py line 119). -/
def subTsF : Nat → List Char → List Char
  | 0, l => l
  | _ + 1, [] => []
  | f + 1, c :: cs =>
    match matchTs (c :: cs) with
    | some n => ' ' :: subTsF f ((c :: cs).drop n)
    | none => c :: subTsF f cs

/-- `re.sub(r'\s+\d{1,2}:\d{2}:\d{2}\s+', ' ', text)` with adequate fuel. -/
def subTs (l : List Char) : List Char :=
  subTsF l.length l

/-- One pass of `re.sub(r'\s+\d{1,2}:\d{2}\s*[AP]M(?=\s|$)', ' ', text)`
(src/typewriter.py line 124). -/
def subAmPmF : Nat → List Char → List Char
  | 0, l => l
  | _ + 1, [] => []
  | f + 1, c :: cs =>
    match matchAmPm (c :: cs) with
    | some n => ' ' :: subAmPmF f ((c :: cs).drop n)
    | none => c :: subAmPmF f cs

/-- `re.sub(r'\s+\d{1,2}:\d{2}\s*[AP]M(?=\s|$)', ' ', text)` with adequate fuel. -/
def subAmPm (l : List Char) : List Char :=
  subAmPmF l.length l

/-- `re.sub(r'^\s*\d{1,2}:\d{2}\s*[AP]M\s*', '', text)` (src/typewriter.py
line 127): the pattern is anchored, so at most one substitution happens. -/
def subStart (l : List Char) : List Char :=
  match matchStart l with
  | some n => l.drop n
  | none => l

/-- Streaming form of `re.sub(r'\s+', ' ', text)` (src/typewriter.py line 130):
every maximal whitespace run becomes a single `' '`.  The flag records whether
the previous emitted character closed a whitespace run. -/
def collapseAux : Bool → List Char → List Char
  | _, [] => []
  | prevWs, c :: cs =>
    if isPySpace c then
      if prevWs then collapseAux true cs else ' ' :: collapseAux true cs
    else c :: collapseAux false cs

/-- `re.sub(r'\s+', ' ', text)`. -/
def collapseWs (l : List Char) : List Char :=
  collapseAux false l

/-- Python `str.strip()`: drop leading and trailing whitespace. -/
def stripL (l : List Char) : List Char :=
  ((l.dropWhile isPySpace).reverse.dropWhile isPySpace).reverse

/-- `clean_quote_text` (src/typewriter.py lines 102-135): the empty-string
guard, the four `re.sub` stages, whitespace collapsing, and the final strip,
in source order. -/
def clean_quote_text (l : List Char) : List Char :=
  if l = [] then l
  else stripL (collapseWs (subStart (subAmPm (subTs (subTags l)))))

end Sanitizer

/-- Two-digit zero-padded rendering of `{n:02d}` for the hour/minute fields. -/
def fmt02 (n : Nat) : List Char :=
  if n < 10 then '0' :: Nat.toDigits 10 n else Nat.toDigits 10 n

/-- The placeholder `f"No quote found for {hour:02d}:{minute:02d}"`
(src/typewriter.py line 415). -/
def noQuoteMsg (hour minute : Nat) : List Char :=
  "No quote found for ".data ++ fmt02 hour ++ [':'] ++ fmt02 minute

/-- The display text computed by `TypewriterApp._update_clock_display`
(src/typewriter.py lines 414-418): the cleaned quote when the data store
returned one (`quote_data['quote']` is passed through `clean_quote_text`),
otherwise the placeholder message.  `get_quote` draws a random quote for the
minute, so the fetched raw text is an input here. -/
def displayText (now : Nat × Nat) (q : Option (List Char)) : List Char :=
  match q with
  | none => noQuoteMsg now.1 now.2
  | some raw => clean_quote_text raw

/-- The state effect of `TypewriterApp._render_clock_display` (src/typewriter.py
lines 432-486): the clock render reads `self.clock_quotes` but mutates no
state; the returned `Bool` records a `TimeoutError` from the display handoff. -/
def renderClockDisplay (timeout : Bool) (s : TWState) : TWState × Bool :=
  (s, timeout)

/-- `TypewriterApp._update_clock_display` (src/typewriter.py lines 402-430):
append the display text to `self.clock_quotes`, cap the history at 15 entries
by `pop(0)`, then render; a `TimeoutError` is caught and only logged. -/
def updateClockDisplay (timeout : Bool) (now : Nat × Nat) (q : Option (List Char))
    (s : TWState) : TWState :=
  let qs0 := s.clock_quotes ++ [displayText now q]
  let qs := if qs0.length > 15 then qs0.drop 1 else qs0
  (renderClockDisplay timeout { s with clock_quotes := qs }).1

/-- `TypewriterApp._enter_clock_mode` (src/typewriter.py lines 389-400):
set the mode to clock, reset `self.clock_quotes` to `[]`, and immediately
display the current time's quote. -/
def enterClockMode (timeout : Bool) (now : Nat × Nat) (q : Option (List Char))
    (s : TWState) : TWState :=
  updateClockDisplay timeout now q { s with mode := Mode.clock, clock_quotes := [] }

/-- `TypewriterApp._handle_keystroke` (src/typewriter.py lines 305-334).
In clock mode any key switches to typewriter mode, clears the text and resets
the offset (the key itself is dropped, and `command_buffer` is not touched).
In typewriter mode the command buffer is updated and capped, the `;clock`
suffix is checked on the updated buffer, and either the machine enters clock
mode (after which line 330 sets `command_buffer` to the empty string) or the
key is processed as typewriter input. -/
def handleKeystroke (k : List Char) (now : Nat × Nat) (q : Option (List Char))
    (timeout : Bool) (s : TWState) : TWState :=
  if s.mode = Mode.clock then
    { s with mode := Mode.typewriter, text := [], y_offset := START_Y_OFFSET }
  else
    let s1 := { s with command_buffer := newBuffer s.command_buffer k }
    if commandFires s.command_buffer k then
      { enterClockMode timeout now q s1 with command_buffer := [] }
    else
      processTypewriterKey timeout k s1

/-- The events the consumer loop dispatches on (src/typewriter.py lines
519-524): a decoded keystroke, or a minute tick from the clock thread.  Each
carries the wall-clock `(hour, minute)`, the (randomly chosen, hence
unconstrained) raw quote for that minute, and whether the display handoff
times out. -/
inductive Ev where
  | key (k : List Char) (now : Nat × Nat) (q : Option (List Char)) (timeout : Bool)
  | tick (now : Nat × Nat) (q : Option (List Char)) (timeout : Bool)

/-- One iteration of the consumer loop (src/typewriter.py lines 517-527). -/
def step (e : Ev) (s : TWState) : TWState :=
  match e with
  | Ev.key k now q tmo => handleKeystroke k now q tmo s
  | Ev.tick now q tmo => updateClockDisplay tmo now q s

/-- The state built by `TypewriterApp.__init__` (src/typewriter.py lines
180-199): clock mode, empty buffers, offset at `START_Y_OFFSET`. -/
def initState : TWState :=
  { mode := Mode.clock
    command_buffer := []
    text := []
    y_offset := START_Y_OFFSET
    clock_quotes := [] }

/-- The states the event loop can reach from the freshly constructed
application. -/
inductive Reachable : TWState → Prop where
  | init : Reachable initState
  | next : ∀ {s : TWState} (e : Ev), Reachable s → Reachable (step e s)

end Typewriter

namespace Typewriter

/-! ## Basic lemmas about the command buffer -/

theorem trim6_length_le (l : List Char) : (trim6 l).length ≤ 6 := by
  unfold trim6
  split
  · simp only [List.length_drop]
    omega
  · omega

theorem newBuffer_length_le (b k : List Char) : (newBuffer b k).length ≤ 6 :=
  trim6_length_le _

theorem semicolonClock_length : semicolonClock.length = 6 := rfl

/-! ## Unfolding lemmas for the three branches of `_handle_keystroke` -/

theorem handleKeystroke_clock {s : TWState} (h : s.mode = Mode.clock)
    (k : List Char) (now : Nat × Nat) (q : Option (List Char)) (tmo : Bool) :
    handleKeystroke k now q tmo s =
      { s with mode := Mode.typewriter, text := [], y_offset := START_Y_OFFSET } := by
  unfold handleKeystroke
  rw [if_pos h]

theorem handleKeystroke_fires {s : TWState} (h : s.mode = Mode.typewriter)
    {k : List Char} (hf : commandFires s.command_buffer k = true)
    (now : Nat × Nat) (q : Option (List Char)) (tmo : Bool) :
    handleKeystroke k now q tmo s =
      ⟨Mode.clock, [], s.text, s.y_offset, [displayText now q]⟩ := by
  unfold handleKeystroke
  rw [if_neg (by rw [h]; exact fun hc => Mode.noConfusion hc), if_pos hf]
  simp [enterClockMode, updateClockDisplay, renderClockDisplay]

theorem handleKeystroke_nofire {s : TWState} (h : s.mode = Mode.typewriter)
    {k : List Char} (hf : commandFires s.command_buffer k = false)
    (now : Nat × Nat) (q : Option (List Char)) (tmo : Bool) :
    handleKeystroke k now q tmo s =
      ⟨Mode.typewriter, newBuffer s.command_buffer k, applyTypewriterKey k s.text,
        s.y_offset - (((7 * (applyTypewriterKey k s.text).length) / 1000 : Nat) : Int),
        s.clock_quotes⟩ := by
  unfold handleKeystroke processTypewriterKey renderTypewriter
  rw [if_neg (by rw [h]; exact fun hc => Mode.noConfusion hc),
    if_neg (by rw [hf]; exact Bool.false_ne_true)]
  rw [show ({ s with command_buffer := newBuffer s.command_buffer k } : TWState).mode
      = s.mode from rfl, h]

/-! ## Reachability invariants -/

theorem reachable_clock_buffer_empty {s : TWState} (h : Reachable s) :
    s.mode = Mode.clock → s.command_buffer = [] := by
  induction h with
  | init => intro _; rfl
  | @next s e _ ih =>
    cases e with
    | key k now q tmo =>
      simp only [step]
      cases hm : s.mode with
      | clock =>
        rw [handleKeystroke_clock hm]
        intro hc
        exact absurd hc (by simp)
      | typewriter =>
        cases hf : commandFires s.command_buffer k with
        | true =>
          rw [handleKeystroke_fires hm hf]
          intro _
          rfl
        | false =>
          rw [handleKeystroke_nofire hm hf]
          intro hc
          exact absurd hc (by simp)
    | tick now q tmo =>
      simp only [step]
      intro hc
      exact ih hc

theorem reachable_quotes_le_15 {s : TWState} (h : Reachable s) :
    s.clock_quotes.length ≤ 15 := by
  induction h with
  | init => decide
  | @next s e _ ih =>
    cases e with
    | key k now q tmo =>
      simp only [step]
      cases hm : s.mode with
      | clock =>
        rw [handleKeystroke_clock hm]
        exact ih
      | typewriter =>
        cases hf : commandFires s.command_buffer k with
        | true =>
          rw [handleKeystroke_fires hm hf]
          simp
        | false =>
          rw [handleKeystroke_nofire hm hf]
          exact ih
    | tick now q tmo =>
      simp only [step]
      unfold updateClockDisplay renderClockDisplay
      simp only
      split
      · simp only [List.length_drop, List.length_append, List.length_singleton]
        omega
      · next hlen =>
        simp only [List.length_append, List.length_singleton] at hlen ⊢
        omega

end Typewriter

namespace Typewriter

/-! ## Concrete scenario states -/

/-- The state right after the machine first switches from clock mode to
typewriter mode: typewriter mode, empty buffers, offset at the start value. -/
def twStart : TWState :=
  { mode := Mode.typewriter
    command_buffer := []
    text := []
    y_offset := START_Y_OFFSET
    clock_quotes := [] }

/-- Feed a list of decoded keystrokes to the machine, with a fixed wall clock,
fetched quote and display outcome. -/
def runKeys (ks : List (List Char)) (now : Nat × Nat) (q : Option (List Char))
    (tmo : Bool) (s : TWState) : TWState :=
  ks.foldl (fun st k => handleKeystroke k now q tmo st) s

/-- The eight keystrokes of the spec scenario `"hi;clock"`. -/
def hiClockKeys : List (List Char) :=
  [['h'], ['i'], [';'], ['c'], ['l'], ['o'], ['c'], ['k']]

/-! ## Claims C1, C2, C3 -/

/-- C1: on any key event received in Clock mode the machine switches to
Typewriter mode, clears `TypedText`, resets `VerticalOffset` to
`START_Y_OFFSET` and leaves `CommandBuffer` empty (it is provably already
empty in every reachable clock-mode state); the triggering key is consumed:
no character of it reaches `TypedText`, which ends empty. -/
theorem C1_clock_key_switches_to_typewriter :
    ∀ s : TWState, Reachable s → s.mode = Mode.clock →
      ∀ (k : List Char) (now : Nat × Nat) (q : Option (List Char)) (tmo : Bool),
        (handleKeystroke k now q tmo s).mode = Mode.typewriter ∧
        (handleKeystroke k now q tmo s).text = [] ∧
        (handleKeystroke k now q tmo s).y_offset = START_Y_OFFSET ∧
        (handleKeystroke k now q tmo s).command_buffer = [] := by
  intro s hs hm k now q tmo
  rw [handleKeystroke_clock hm]
  refine ⟨rfl, rfl, rfl, ?_⟩
  show s.command_buffer = []
  exact reachable_clock_buffer_empty hs hm

/-- Witness for C1 at the initial state and the key `'x'`. -/
theorem C1_clock_key_switches_to_typewriter_witness :
    (handleKeystroke ['x'] (0, 0) none false initState).mode = Mode.typewriter ∧
    (handleKeystroke ['x'] (0, 0) none false initState).text = [] ∧
    (handleKeystroke ['x'] (0, 0) none false initState).y_offset = START_Y_OFFSET ∧
    (handleKeystroke ['x'] (0, 0) none false initState).command_buffer = [] :=
  C1_clock_key_switches_to_typewriter initState Reachable.init rfl ['x'] (0, 0) none false

/-- The command matcher fires exactly when the capped buffer equals `;clock`. -/
theorem commandFires_iff (buf k : List Char) :
    commandFires buf k = true ↔ newBuffer buf k = semicolonClock := by
  unfold commandFires endsWithL
  rw [decide_eq_true_eq]
  constructor
  · intro h
    have h1 : semicolonClock.length ≤ (newBuffer buf k).length := h.length_le
    have h2 := newBuffer_length_le buf k
    exact (h.eq_of_length (by rw [semicolonClock_length] at h1 ⊢; omega)).symm
  · intro h
    rw [h]

/-- C2: after a keystroke in Typewriter mode, the `;clock` command fires if and
only if the updated command buffer — trimmed to its most recent at most six
characters — ends with the literal `;clock`; since the trimmed buffer never
exceeds six characters, this holds iff the trimmed buffer is exactly `;clock`:
shorter contents never match, the comparison is character-exact, and an
occurrence anywhere but the tail cannot match. -/
theorem C2_command_fires_iff_buffer_is_semicolon_clock :
    ∀ buf k : List Char,
      commandFires buf k = true ↔ newBuffer buf k = semicolonClock :=
  fun buf k => commandFires_iff buf k

/-- Stepwise evaluation of the `"hi;clock"` scenario: the first seven keys are
ordinary typewriter input, the eighth completes the command. -/
theorem run_hiClock (now : Nat × Nat) (q : Option (List Char)) (tmo : Bool) :
    runKeys hiClockKeys now q tmo twStart =
      ⟨Mode.clock, [], "hi;cloc".data, START_Y_OFFSET, [displayText now q]⟩ := by
  have e1 : handleKeystroke ['h'] now q tmo twStart =
      ⟨Mode.typewriter, "h".data, "h".data, 150, []⟩ := by
    rw [handleKeystroke_nofire rfl (by decide) now q tmo]
    decide
  have e2 : handleKeystroke ['i'] now q tmo ⟨Mode.typewriter, "h".data, "h".data, 150, []⟩ =
      ⟨Mode.typewriter, "hi".data, "hi".data, 150, []⟩ := by
    rw [handleKeystroke_nofire rfl (by decide) now q tmo]
    decide
  have e3 : handleKeystroke [';'] now q tmo ⟨Mode.typewriter, "hi".data, "hi".data, 150, []⟩ =
      ⟨Mode.typewriter, "hi;".data, "hi;".data, 150, []⟩ := by
    rw [handleKeystroke_nofire rfl (by decide) now q tmo]
    decide
  have e4 : handleKeystroke ['c'] now q tmo ⟨Mode.typewriter, "hi;".data, "hi;".data, 150, []⟩ =
      ⟨Mode.typewriter, "hi;c".data, "hi;c".data, 150, []⟩ := by
    rw [handleKeystroke_nofire rfl (by decide) now q tmo]
    decide
  have e5 : handleKeystroke ['l'] now q tmo ⟨Mode.typewriter, "hi;c".data, "hi;c".data, 150, []⟩ =
      ⟨Mode.typewriter, "hi;cl".data, "hi;cl".data, 150, []⟩ := by
    rw [handleKeystroke_nofire rfl (by decide) now q tmo]
    decide
  have e6 : handleKeystroke ['o'] now q tmo
      ⟨Mode.typewriter, "hi;cl".data, "hi;cl".data, 150, []⟩ =
      ⟨Mode.typewriter, "hi;clo".data, "hi;clo".data, 150, []⟩ := by
    rw [handleKeystroke_nofire rfl (by decide) now q tmo]
    decide
  have e7 : handleKeystroke ['c'] now q tmo
      ⟨Mode.typewriter, "hi;clo".data, "hi;clo".data, 150, []⟩ =
      ⟨Mode.typewriter, "i;cloc".data, "hi;cloc".data, 150, []⟩ := by
    rw [handleKeystroke_nofire rfl (by decide) now q tmo]
    decide
  have e8 : handleKeystroke ['k'] now q tmo
      ⟨Mode.typewriter, "i;cloc".data, "hi;cloc".data, 150, []⟩ =
      ⟨Mode.clock, [], "hi;cloc".data, 150, [displayText now q]⟩ := by
    rw [handleKeystroke_fires rfl (by decide) now q tmo]
  show List.foldl (fun st k => handleKeystroke k now q tmo st) twStart hiClockKeys = _
  rw [hiClockKeys, List.foldl_cons, e1, List.foldl_cons, e2, List.foldl_cons, e3,
    List.foldl_cons, e4, List.foldl_cons, e5, List.foldl_cons, e6, List.foldl_cons, e7,
    List.foldl_cons, e8, List.foldl_nil]
  rfl

/-- C3: completing the `;clock` command in Typewriter mode transitions to
Clock mode, resets `QuoteHistory` to exactly the freshly fetched and cleaned
current-time quote, clears `CommandBuffer`, and performs no typewriter render
(`TypedText` and `VerticalOffset` are untouched); in particular the scenario
typing `"hi;clock"` from Typewriter mode with empty buffers ends in Clock mode
with `QuoteHistory = [current-minute quote]` and an empty `CommandBuffer`. -/
theorem C3_semicolon_clock_enters_clock_mode :
    (∀ (s : TWState) (k : List Char) (now : Nat × Nat) (q : Option (List Char)) (tmo : Bool),
      s.mode = Mode.typewriter → commandFires s.command_buffer k = true →
        handleKeystroke k now q tmo s =
          ⟨Mode.clock, [], s.text, s.y_offset, [displayText now q]⟩) ∧
    (∀ (now : Nat × Nat) (q : Option (List Char)) (tmo : Bool),
      (runKeys hiClockKeys now q tmo twStart).mode = Mode.clock ∧
      (runKeys hiClockKeys now q tmo twStart).clock_quotes = [displayText now q] ∧
      (runKeys hiClockKeys now q tmo twStart).command_buffer = []) := by
  constructor
  · intro s k now q tmo hm hf
    exact handleKeystroke_fires hm hf now q tmo
  · intro now q tmo
    rw [run_hiClock now q tmo]
    exact ⟨rfl, rfl, rfl⟩

/-- Witness for C3: the general transition applied at a concrete typewriter
state whose buffer holds `;cloc` and the key `'k'`, plus the scenario at a
concrete wall-clock time. -/
theorem C3_semicolon_clock_enters_clock_mode_witness :
    (handleKeystroke ['k'] (10, 23) none false
        ⟨Mode.typewriter, ";cloc".data, "hi;cloc".data, 150, []⟩ =
      ⟨Mode.clock, [], "hi;cloc".data, 150, [displayText (10, 23) none]⟩) ∧
    (runKeys hiClockKeys (10, 23) none false twStart).clock_quotes =
      [displayText (10, 23) none] :=
  ⟨C3_semicolon_clock_enters_clock_mode.1
      ⟨Mode.typewriter, ";cloc".data, "hi;cloc".data, 150, []⟩ ['k'] (10, 23) none false
      rfl (by decide),
    (C3_semicolon_clock_enters_clock_mode.2 (10, 23) none false).2.1⟩

end Typewriter

namespace Typewriter

/-! ## Claims C8 and C9 -/

/-- C8: `QuoteHistory` never exceeds 15 entries in any reachable state, and
when a 16th quote is appended (history already at 15) the oldest entry is
evicted, preserving FIFO order. -/
theorem C8_quote_history_fifo_capped_at_15 :
    (∀ s : TWState, Reachable s → s.clock_quotes.length ≤ 15) ∧
    (∀ (s : TWState) (now : Nat × Nat) (q : Option (List Char)) (tmo : Bool),
      s.clock_quotes.length = 15 →
        (updateClockDisplay tmo now q s).clock_quotes =
          s.clock_quotes.drop 1 ++ [displayText now q]) := by
  constructor
  · intro s hs
    exact reachable_quotes_le_15 hs
  · intro s now q tmo h15
    show (if (s.clock_quotes ++ [displayText now q]).length > 15
        then (s.clock_quotes ++ [displayText now q]).drop 1
        else s.clock_quotes ++ [displayText now q]) = _
    rw [if_pos (by simp [h15])]
    exact List.drop_append_of_le_length (by omega)

/-- A clock-mode state whose history already holds 15 quotes. -/
def full15 : TWState :=
  ⟨Mode.clock, [], [], 150, List.replicate 15 ['q']⟩

/-- Witness for C8: the invariant at the initial state, and the FIFO eviction
at a concrete state with exactly 15 stored quotes. -/
theorem C8_quote_history_fifo_capped_at_15_witness :
    initState.clock_quotes.length ≤ 15 ∧
    (updateClockDisplay false (12, 0) none full15).clock_quotes =
      full15.clock_quotes.drop 1 ++ [displayText (12, 0) none] :=
  ⟨C8_quote_history_fifo_capped_at_15.1 initState Reachable.init,
    C8_quote_history_fifo_capped_at_15.2 full15 (12, 0) none false rfl⟩

/-- C9: a `TimeoutError` raised by the display handoff is caught at the render
call site in both modes and changes nothing: the machine state is identical
whether or not the render times out, and after a failed render the state is
exactly the state as updated before the render attempt (text and buffer
already edited in typewriter mode, quote appended in clock mode) — there is
no rollback. -/
theorem C9_render_timeout_caught_no_rollback :
    (∀ (s : TWState) (k : List Char) (now : Nat × Nat) (q : Option (List Char)),
      handleKeystroke k now q true s = handleKeystroke k now q false s) ∧
    (∀ (s : TWState) (now : Nat × Nat) (q : Option (List Char)),
      updateClockDisplay true now q s = updateClockDisplay false now q s) ∧
    (∀ (s : TWState) (k : List Char) (now : Nat × Nat) (q : Option (List Char)),
      s.mode = Mode.typewriter → commandFires s.command_buffer k = false →
        (handleKeystroke k now q true s).text = applyTypewriterKey k s.text ∧
        (handleKeystroke k now q true s).command_buffer = newBuffer s.command_buffer k ∧
        (handleKeystroke k now q true s).clock_quotes = s.clock_quotes ∧
        (handleKeystroke k now q true s).mode = Mode.typewriter) ∧
    (∀ (s : TWState) (now : Nat × Nat) (q : Option (List Char)),
      (updateClockDisplay true now q s).text = s.text ∧
      (updateClockDisplay true now q s).command_buffer = s.command_buffer ∧
      (updateClockDisplay true now q s).mode = s.mode ∧
      (updateClockDisplay true now q s).clock_quotes =
        (if (s.clock_quotes ++ [displayText now q]).length > 15
          then (s.clock_quotes ++ [displayText now q]).drop 1
          else s.clock_quotes ++ [displayText now q])) := by
  refine ⟨?_, ?_, ?_, ?_⟩
  · intro s k now q
    cases hm : s.mode with
    | clock =>
      rw [handleKeystroke_clock hm, handleKeystroke_clock hm]
    | typewriter =>
      cases hf : commandFires s.command_buffer k with
      | true => rw [handleKeystroke_fires hm hf, handleKeystroke_fires hm hf]
      | false => rw [handleKeystroke_nofire hm hf, handleKeystroke_nofire hm hf]
  · intro s now q
    rfl
  · intro s k now q hm hf
    rw [handleKeystroke_nofire hm hf]
    exact ⟨rfl, rfl, rfl, rfl⟩
  · intro s now q
    exact ⟨rfl, rfl, rfl, rfl⟩

/-- Witness for C9: the typewriter no-rollback facts at a concrete state where
the display times out. -/
theorem C9_render_timeout_caught_no_rollback_witness :
    (handleKeystroke ['c'] (0, 0) none true ⟨Mode.typewriter, [], "ab".data, 150, []⟩).text =
      applyTypewriterKey ['c'] (⟨Mode.typewriter, [], "ab".data, 150, []⟩ : TWState).text ∧
    (handleKeystroke ['c'] (0, 0) none true ⟨Mode.typewriter, [], "ab".data, 150, []⟩).command_buffer =
      newBuffer (⟨Mode.typewriter, [], "ab".data, 150, []⟩ : TWState).command_buffer ['c'] ∧
    (handleKeystroke ['c'] (0, 0) none true ⟨Mode.typewriter, [], "ab".data, 150, []⟩).clock_quotes =
      (⟨Mode.typewriter, [], "ab".data, 150, []⟩ : TWState).clock_quotes ∧
    (handleKeystroke ['c'] (0, 0) none true ⟨Mode.typewriter, [], "ab".data, 150, []⟩).mode =
      Mode.typewriter :=
  C9_render_timeout_caught_no_rollback.2.2.1 ⟨Mode.typewriter, [], "ab".data, 150, []⟩
    ['c'] (0, 0) none rfl (by decide)

end Typewriter

namespace Typewriter

/-! ## Claim C7 -/

/-- A typewriter state whose buffer holds `;cloc`, one key short of the
command. -/
def almostCommand : TWState :=
  ⟨Mode.typewriter, ";cloc".data, "abc".data, 150, []⟩

/-- Counterexample to C7 as stated: in Typewriter mode the keystroke `'k'`
that completes the `;clock` command updates the command buffer but does NOT
append to `TypedText` — the text stays `"abc"` instead of becoming `"abck"`
as the per-key §3 rules would demand. -/
theorem C7_counterexample_command_key_not_appended :
    (handleKeystroke ['k'] (0, 0) none false almostCommand).text = "abc".data ∧
    (handleKeystroke ['k'] (0, 0) none false almostCommand).text ≠ "abc".data ++ ['k'] ∧
    applyTypewriterKey ['k'] "abc".data = "abc".data ++ ['k'] := by
  refine ⟨?_, by decide, by decide⟩
  rw [handleKeystroke_fires rfl (by decide) (0, 0) none false]
  rfl

/-- C7 (amended): every key event handled in Typewriter mode that does not
complete the `;clock` command updates `CommandBuffer` (append, capped at 6
with FIFO eviction) and edits `TypedText` by the §3 rules — space appends one
space, backspace removes exactly one trailing character (a no-op when the
text is empty), enter appends a line break surrounded by padding spaces, and
a printable key is appended as-is; a key that completes the command updates
only the buffer and leaves `TypedText` unchanged. -/
theorem C7_amended_typewriter_key_updates_buffer_and_text :
    (∀ (s : TWState) (k : List Char) (now : Nat × Nat) (q : Option (List Char)) (tmo : Bool),
      s.mode = Mode.typewriter → commandFires s.command_buffer k = false →
        (handleKeystroke k now q tmo s).command_buffer = newBuffer s.command_buffer k ∧
        (handleKeystroke k now q tmo s).text = applyTypewriterKey k s.text) ∧
    (∀ (s : TWState) (k : List Char) (now : Nat × Nat) (q : Option (List Char)) (tmo : Bool),
      s.mode = Mode.typewriter → commandFires s.command_buffer k = true →
        (handleKeystroke k now q tmo s).text = s.text) ∧
    (∀ t : List Char, applyTypewriterKey "space".data t = t ++ [' ']) ∧
    (∀ t : List Char, applyTypewriterKey "backspace".data t = t.dropLast) ∧
    (applyTypewriterKey "backspace".data [] = []) ∧
    (∀ t : List Char, applyTypewriterKey "enter".data t = t ++ [' ', '\n', ' ']) ∧
    (∀ k t : List Char, k ≠ "space".data → k ≠ "backspace".data → k ≠ "enter".data →
      applyTypewriterKey k t = t ++ k) := by
  refine ⟨?_, ?_, ?_, ?_, by decide, ?_, ?_⟩
  · intro s k now q tmo hm hf
    rw [handleKeystroke_nofire hm hf]
    exact ⟨rfl, rfl⟩
  · intro s k now q tmo hm hf
    rw [handleKeystroke_fires hm hf]
  · intro t
    rw [applyTypewriterKey, if_pos rfl]
  · intro t
    rw [applyTypewriterKey, if_neg (by decide), if_pos rfl]
  · intro t
    rw [applyTypewriterKey, if_neg (by decide), if_neg (by decide), if_pos rfl]
  · intro k t h1 h2 h3
    rw [applyTypewriterKey, if_neg h1, if_neg h2, if_neg h3]

/-- Witness for C7 (amended): the non-command branch applied at a concrete
state and key. -/
theorem C7_amended_typewriter_key_updates_buffer_and_text_witness :
    (handleKeystroke ['z'] (0, 0) none false twStart).command_buffer =
      newBuffer twStart.command_buffer ['z'] ∧
    (handleKeystroke ['z'] (0, 0) none false twStart).text =
      applyTypewriterKey ['z'] twStart.text :=
  C7_amended_typewriter_key_updates_buffer_and_text.1 twStart ['z'] (0, 0) none false
    rfl (by decide)

/-! ## Claim C5: the vertical offset -/

/-- Cumulative decrement applied to the vertical offset after `n` renders of a
text that grows by one character per keystroke: the `i`-th render subtracts
`⌊7·i/1000⌋`. -/
def decSum : Nat → Nat
  | 0 => 0
  | n + 1 => decSum n + (7 * (n + 1)) / 1000

/-- The command buffer after `n` keystrokes of the letter `'a'`. -/
def bufA (n : Nat) : List Char :=
  List.replicate (min n 6) 'a'

theorem newBuffer_bufA (n : Nat) :
    newBuffer (bufA n) ['a'] = List.replicate (min (n + 1) 6) 'a' := by
  unfold newBuffer bufA trim6
  rw [← List.replicate_succ' (min n 6) 'a']
  by_cases h6 : 6 ≤ n
  · rw [if_pos (by simp; omega)]
    simp only [List.length_replicate, List.drop_replicate]
    congr 1
    omega
  · rw [if_neg (by simp; omega)]
    congr 1
    omega

theorem commandFires_bufA (n : Nat) : commandFires (bufA n) ['a'] = false := by
  cases hcf : commandFires (bufA n) ['a'] with
  | false => rfl
  | true =>
    exfalso
    have h := (commandFires_iff (bufA n) ['a']).mp hcf
    rw [newBuffer_bufA n] at h
    have hlen := congrArg List.length h
    simp only [List.length_replicate, semicolonClock_length] at hlen
    rw [hlen] at h
    exact absurd h (by decide)

/-- Closed form for a run of `n` keystrokes of `'a'` from the typewriter start
state: the text is `n` copies of `'a'`, the buffer holds the last
`min n 6` of them, and the offset has dropped by the cumulative sum of the
per-render decrements. -/
theorem run_replicate_a (now : Nat × Nat) (q : Option (List Char)) (tmo : Bool) :
    ∀ n : Nat, runKeys (List.replicate n ['a']) now q tmo twStart =
      ⟨Mode.typewriter, bufA n, List.replicate n 'a',
        START_Y_OFFSET - ((decSum n : Nat) : Int), []⟩ := by
  intro n
  induction n with
  | zero => rfl
  | succ n ih =>
    rw [runKeys] at ih ⊢
    rw [List.replicate_succ' n ['a'], List.foldl_append, ih, List.foldl_cons, List.foldl_nil]
    rw [handleKeystroke_nofire rfl (commandFires_bufA n) now q tmo]
    have htext : applyTypewriterKey ['a'] (List.replicate n 'a') =
        List.replicate (n + 1) 'a' := by
      rw [applyTypewriterKey, if_neg (by decide), if_neg (by decide), if_neg (by decide),
        List.replicate_succ' n 'a']
    have hy : START_Y_OFFSET - ((decSum n : Nat) : Int) -
        (((7 * (List.replicate (n + 1) 'a').length) / 1000 : Nat) : Int) =
        START_Y_OFFSET - ((decSum (n + 1) : Nat) : Int) := by
      rw [List.length_replicate, show decSum (n + 1) = decSum n + (7 * (n + 1)) / 1000 from rfl]
      push_cast
      ring
    show (⟨Mode.typewriter, newBuffer (bufA n) ['a'],
        applyTypewriterKey ['a'] (List.replicate n 'a'),
        START_Y_OFFSET - ((decSum n : Nat) : Int) -
          (((7 * (applyTypewriterKey ['a'] (List.replicate n 'a')).length) / 1000 : Nat) : Int),
        []⟩ : TWState) = _
    rw [htext, newBuffer_bufA n, hy]
    rfl

end Typewriter

namespace Typewriter

set_option maxRecDepth 8192 in
/-- Counterexample to C5 as stated: after 144 `'a'` keystrokes from the
typewriter start state the offset is `148 = 150 - (1 + 1)` — the per-render
decrements accumulate — and not `150 - ⌊144·0.007⌋ = 149`, so the offset has
not "decreased by `⌊len·0.007⌋` from the fixed start value". -/
theorem C5_counterexample_offset_decrement_is_cumulative :
    (runKeys (List.replicate 144 ['a']) (0, 0) none false twStart).y_offset ≠
      START_Y_OFFSET -
        (((7 * (runKeys (List.replicate 144 ['a']) (0, 0) none false twStart).text.length) /
          1000 : Nat) : Int) := by
  rw [run_replicate_a (0, 0) none false 144]
  decide

set_option maxRecDepth 8192 in
/-- C5 (amended): each typewriter render decrements the current vertical
offset by `⌊7·len(TypedText)/1000⌋` (so the decrements accumulate across
renders instead of being measured from the start value), the offset never
increases, and there is no lower clamp: a 300-keystroke run drives it below
zero. -/
theorem C5_amended_offset_decrements_per_render :
    (∀ (s : TWState) (k : List Char) (now : Nat × Nat) (q : Option (List Char)) (tmo : Bool),
      s.mode = Mode.typewriter → commandFires s.command_buffer k = false →
        (handleKeystroke k now q tmo s).y_offset =
          s.y_offset - (((7 * (applyTypewriterKey k s.text).length) / 1000 : Nat) : Int) ∧
        (handleKeystroke k now q tmo s).y_offset ≤ s.y_offset) ∧
    (runKeys (List.replicate 300 ['a']) (0, 0) none false twStart).y_offset < 0 := by
  constructor
  · intro s k now q tmo hm hf
    rw [handleKeystroke_nofire hm hf]
    refine ⟨rfl, ?_⟩
    show s.y_offset - (((7 * (applyTypewriterKey k s.text).length) / 1000 : Nat) : Int) ≤
      s.y_offset
    omega
  · rw [run_replicate_a (0, 0) none false 300]
    decide

/-- Witness for C5 (amended): the per-render law at the typewriter start state
and the key `'a'`. -/
theorem C5_amended_offset_decrements_per_render_witness :
    (handleKeystroke ['a'] (0, 0) none false twStart).y_offset =
      twStart.y_offset -
        (((7 * (applyTypewriterKey ['a'] twStart.text).length) / 1000 : Nat) : Int) ∧
    (handleKeystroke ['a'] (0, 0) none false twStart).y_offset ≤ twStart.y_offset :=
  C5_amended_offset_decrements_per_render.1 twStart ['a'] (0, 0) none false rfl (by decide)

end Typewriter

namespace Typewriter

/-! ## The key decoder (`TypewriterApp._evdev_key_to_char`) and claim C10 -/

/-- The `shift_map` for digit keys (src/typewriter.py lines 264-267). -/
def shiftDigit (c : Char) : Char :=
  if c = '1' then '!' else if c = '2' then '@' else if c = '3' then '#'
  else if c = '4' then '$' else if c = '5' then '%' else if c = '6' then '^'
  else if c = '7' then '&' else if c = '8' then '*' else if c = '9' then '('
  else ')'

/-- The `punct_map` lookup (src/typewriter.py lines 271-285); only the
semicolon entry consults the shift state. -/
def punctLookup (shift : Bool) (keycode : List Char) : Option (List Char) :=
  if keycode = "KEY_SEMICOLON".data then some [if shift then ':' else ';']
  else if keycode = "KEY_COMMA".data then some [',']
  else if keycode = "KEY_DOT".data then some ['.']
  else if keycode = "KEY_SLASH".data then some ['/']
  else if keycode = "KEY_APOSTROPHE".data then some ['\'']
  else if keycode = "KEY_MINUS".data then some ['-']
  else if keycode = "KEY_EQUAL".data then some ['=']
  else if keycode = "KEY_LEFTBRACE".data then some ['[']
  else if keycode = "KEY_RIGHTBRACE".data then some [']']
  else if keycode = "KEY_BACKSLASH".data then some ['\\']
  else none

/-- `TypewriterApp._evdev_key_to_char` (src/typewriter.py lines 236-287):
the space/backspace/enter keys map to their multi-character token names;
five-character `KEY_x` codes are decoded as letters (lowercased, uppercased
under shift) or digits (shifted to symbols); named punctuation keys map via
the fixed table; everything else yields no output. -/
def evdevKeyToChar (shift : Bool) (keycode : List Char) : Option (List Char) :=
  if keycode = "KEY_SPACE".data then some "space".data
  else if keycode = "KEY_BACKSPACE".data then some "backspace".data
  else if keycode = "KEY_ENTER".data then some "enter".data
  else
    match keycode with
    | ['K', 'E', 'Y', '_', c] =>
      if 'a' ≤ c.toLower ∧ c.toLower ≤ 'z' then
        some [if shift then c.toLower.toUpper else c.toLower]
      else if '0' ≤ c ∧ c ≤ '9' then
        some [if shift then shiftDigit c else c]
      else punctLookup shift keycode
    | _ => punctLookup shift keycode

/-- C10: in Typewriter mode the control keys arrive as their multi-character
token names — `space` (5 characters), `backspace` (9), `enter` (5) — and
those whole names are appended to `CommandBuffer` before it is trimmed to its
last 6 characters; consequently a backspace keystroke never deletes from
`CommandBuffer` (the buffer length never decreases, and after a backspace the
buffer is always the 6-character tail `kspace` of the token name, so a single
control keystroke evicts every previously buffered character). -/
theorem C10_control_keys_append_token_names_to_buffer :
    (∀ shift : Bool,
      evdevKeyToChar shift "KEY_SPACE".data = some "space".data ∧
      evdevKeyToChar shift "KEY_BACKSPACE".data = some "backspace".data ∧
      evdevKeyToChar shift "KEY_ENTER".data = some "enter".data) ∧
    ("space".data.length = 5 ∧ "backspace".data.length = 9 ∧ "enter".data.length = 5) ∧
    (∀ buf : List Char, newBuffer buf "backspace".data = "kspace".data) ∧
    (∀ buf k : List Char, buf.length ≤ 6 → buf.length ≤ (newBuffer buf k).length) := by
  refine ⟨by intro shift; cases shift <;> exact ⟨rfl, rfl, rfl⟩, by decide, ?_, ?_⟩
  · intro buf
    unfold newBuffer trim6
    rw [if_pos (by rw [List.length_append, show ("backspace".data).length = 9 from rfl]; omega)]
    rw [List.length_append, show ("backspace".data).length = 9 from rfl,
      show buf.length + 9 - 6 = buf.length + 3 from by omega, List.drop_append]
    decide
  · intro buf k h6
    unfold newBuffer trim6
    split
    · rw [List.length_drop]
      omega
    · rw [List.length_append]
      omega

/-- Witness for C10: the buffer-monotonicity part applied at the buffer
`;cloc` and the space token. -/
theorem C10_control_keys_append_token_names_to_buffer_witness :
    (";cloc".data.length ≤ 6) ∧
    ";cloc".data.length ≤ (newBuffer ";cloc".data "space".data).length :=
  ⟨by decide,
    C10_control_keys_append_token_names_to_buffer.2.2.2 ";cloc".data "space".data (by decide)⟩

end Typewriter

namespace Typewriter

/-! ## Claim C4: the sanitizer is not idempotent -/

/-- Counterexample to C4 as stated: on
`"a 1:11:11 2:22:22 b"` the first pass removes only the first timestamp
(its match consumes the separating whitespace, so the second timestamp is no
longer preceded by `\s+` when scanning resumes), while a second pass removes
the second timestamp as well: the sanitizer is not idempotent. -/
theorem C4_counterexample_sanitizer_not_idempotent :
    clean_quote_text (clean_quote_text "a 1:11:11 2:22:22 b".data) ≠
      clean_quote_text "a 1:11:11 2:22:22 b".data := by
  have t1 : subTags "a 1:11:11 2:22:22 b".data = "a 1:11:11 2:22:22 b".data := by decide
  have t2 : subTs "a 1:11:11 2:22:22 b".data = "a 2:22:22 b".data := by decide
  have t3 : subAmPm "a 2:22:22 b".data = "a 2:22:22 b".data := by decide
  have t4 : subStart "a 2:22:22 b".data = "a 2:22:22 b".data := by decide
  have t5 : collapseWs "a 2:22:22 b".data = "a 2:22:22 b".data := by decide
  have t6 : stripL "a 2:22:22 b".data = "a 2:22:22 b".data := by decide
  have hc1 : clean_quote_text "a 1:11:11 2:22:22 b".data = "a 2:22:22 b".data := by
    rw [clean_quote_text, if_neg (by decide), t1, t2, t3, t4, t5, t6]
  have u1 : subTags "a 2:22:22 b".data = "a 2:22:22 b".data := by decide
  have u2 : subTs "a 2:22:22 b".data = "a b".data := by decide
  have u3 : subAmPm "a b".data = "a b".data := by decide
  have u4 : subStart "a b".data = "a b".data := by decide
  have u5 : collapseWs "a b".data = "a b".data := by decide
  have u6 : stripL "a b".data = "a b".data := by decide
  have hc2 : clean_quote_text "a 2:22:22 b".data = "a b".data := by
    rw [clean_quote_text, if_neg (by decide), u1, u2, u3, u4, u5, u6]
  rw [hc1, hc2]
  decide

end Typewriter

namespace Typewriter

/-! ## Idempotence of the sanitizer on digit-free, tag-free text -/

/-- No decimal digit occurs in `l` (so the three timestamp stages cannot
match). -/
def NoDigit (l : List Char) : Prop := ∀ c ∈ l, c.isDigit = false

/-- The character `'<'` does not occur in `l` (so the tag stage cannot
match). -/
def NoLt (l : List Char) : Prop := ∀ c ∈ l, c ≠ '<'

theorem subTagsF_id : ∀ (f : Nat) (l : List Char), NoLt l → subTagsF f l = l := by
  intro f
  induction f with
  | zero => intro l _; rfl
  | succ f ih =>
    intro l h
    cases l with
    | nil => rfl
    | cons c cs =>
      have hc : ¬(c = '<') := h c (List.mem_cons_self c cs)
      simp only [subTagsF, if_neg hc]
      rw [ih cs (fun d hd => h d (List.mem_cons_of_mem c hd))]

theorem subTags_id {l : List Char} (h : NoLt l) : subTags l = l :=
  subTagsF_id l.length l h

theorem parseHourColon_none {l : List Char} (h : NoDigit l) : parseHourColon l = none := by
  cases l with
  | nil => rfl
  | cons d1 rest1 =>
    have hd1 : d1.isDigit = false := h d1 (List.mem_cons_self d1 rest1)
    cases rest1 with
    | nil => rfl
    | cons d2 rest2 =>
      cases rest2 with
      | nil => simp [parseHourColon, hd1]
      | cons c3 rest3 => simp [parseHourColon, hd1]

theorem matchTs_none {l : List Char} (h : NoDigit l) : matchTs l = none := by
  unfold matchTs
  by_cases hws : (l.takeWhile isPySpace).isEmpty = true
  · rw [if_pos hws]
  · rw [if_neg hws, parseHourColon_none (fun c hc => h c (List.mem_of_mem_drop hc))]

theorem matchAmPm_none {l : List Char} (h : NoDigit l) : matchAmPm l = none := by
  unfold matchAmPm
  by_cases hws : (l.takeWhile isPySpace).isEmpty = true
  · rw [if_pos hws]
  · rw [if_neg hws, parseHourColon_none (fun c hc => h c (List.mem_of_mem_drop hc))]

theorem matchStart_none {l : List Char} (h : NoDigit l) : matchStart l = none := by
  unfold matchStart
  rw [parseHourColon_none (fun c hc => h c (List.mem_of_mem_drop hc))]

theorem subTsF_id : ∀ (f : Nat) (l : List Char), NoDigit l → subTsF f l = l := by
  intro f
  induction f with
  | zero => intro l _; rfl
  | succ f ih =>
    intro l h
    cases l with
    | nil => rfl
    | cons c cs =>
      simp only [subTsF, matchTs_none h]
      rw [ih cs (fun d hd => h d (List.mem_cons_of_mem c hd))]

theorem subTs_id {l : List Char} (h : NoDigit l) : subTs l = l :=
  subTsF_id l.length l h

theorem subAmPmF_id : ∀ (f : Nat) (l : List Char), NoDigit l → subAmPmF f l = l := by
  intro f
  induction f with
  | zero => intro l _; rfl
  | succ f ih =>
    intro l h
    cases l with
    | nil => rfl
    | cons c cs =>
      simp only [subAmPmF, matchAmPm_none h]
      rw [ih cs (fun d hd => h d (List.mem_cons_of_mem c hd))]

theorem subAmPm_id {l : List Char} (h : NoDigit l) : subAmPm l = l :=
  subAmPmF_id l.length l h

theorem subStart_id {l : List Char} (h : NoDigit l) : subStart l = l := by
  unfold subStart
  rw [matchStart_none h]

end Typewriter

namespace Typewriter

/-! ### Unfolding lemmas for the whitespace collapser -/

theorem collapseAux_cons_ws_true {c : Char} (cs : List Char) (hc : isPySpace c = true) :
    collapseAux true (c :: cs) = collapseAux true cs := by
  simp [collapseAux, hc]

theorem collapseAux_cons_ws_false {c : Char} (cs : List Char) (hc : isPySpace c = true) :
    collapseAux false (c :: cs) = ' ' :: collapseAux true cs := by
  simp [collapseAux, hc]

theorem collapseAux_cons_nws (b : Bool) {c : Char} (cs : List Char) (hc : isPySpace c = false) :
    collapseAux b (c :: cs) = c :: collapseAux false cs := by
  cases b <;> simp [collapseAux, hc]

theorem collapseAux_mem : ∀ (b : Bool) (l : List Char) (c : Char),
    c ∈ collapseAux b l → c ∈ l ∨ c = ' ' := by
  intro b l
  induction l generalizing b with
  | nil => intro c hc; cases hc
  | cons d cs ih =>
    intro c hc
    by_cases hd : isPySpace d = true
    · cases b with
      | true =>
        rw [collapseAux_cons_ws_true cs hd] at hc
        rcases ih true c hc with h | h
        · exact Or.inl (List.mem_cons_of_mem d h)
        · exact Or.inr h
      | false =>
        rw [collapseAux_cons_ws_false cs hd] at hc
        rcases List.mem_cons.mp hc with h | h
        · exact Or.inr h
        · rcases ih true c h with h2 | h2
          · exact Or.inl (List.mem_cons_of_mem d h2)
          · exact Or.inr h2
    · rw [collapseAux_cons_nws b cs (Bool.of_not_eq_true hd)] at hc
      rcases List.mem_cons.mp hc with h | h
      · exact Or.inl (h ▸ List.mem_cons_self d cs)
      · rcases ih false c h with h2 | h2
        · exact Or.inl (List.mem_cons_of_mem d h2)
        · exact Or.inr h2

theorem stripL_mem {l : List Char} {c : Char} (hc : c ∈ stripL l) : c ∈ l := by
  unfold stripL at hc
  rw [List.mem_reverse] at hc
  have h2 := (List.dropWhile_sublist (l := (l.dropWhile isPySpace).reverse) isPySpace).mem hc
  rw [List.mem_reverse] at h2
  exact (List.dropWhile_sublist isPySpace).mem h2

/-! ### The collapser is idempotent -/

theorem collapseAux_idem : ∀ l : List Char,
    collapseAux true (collapseAux true l) = collapseAux true l ∧
    collapseAux false (collapseAux false l) = collapseAux false l := by
  intro l
  induction l with
  | nil => exact ⟨rfl, rfl⟩
  | cons c cs ih =>
    by_cases hc : isPySpace c = true
    · constructor
      · rw [collapseAux_cons_ws_true cs hc]
        exact ih.1
      · rw [collapseAux_cons_ws_false cs hc,
          collapseAux_cons_ws_false (collapseAux true cs) (by decide)]
        rw [ih.1]
    · have hc' : isPySpace c = false := Bool.of_not_eq_true hc
      constructor
      · rw [collapseAux_cons_nws true cs hc', collapseAux_cons_nws true (collapseAux false cs) hc']
        rw [ih.2]
      · rw [collapseAux_cons_nws false cs hc', collapseAux_cons_nws false (collapseAux false cs) hc']
        rw [ih.2]

theorem collapseWs_idem (l : List Char) : collapseWs (collapseWs l) = collapseWs l :=
  (collapseAux_idem l).2

end Typewriter

namespace Typewriter

/-! ### The collapser commutes with reversal -/

/-- The run flag the collapser carries after scanning `l`, starting from
flag `b`: whether the last scanned character was whitespace. -/
def endFlag (b : Bool) (l : List Char) : Bool :=
  match l.getLast? with
  | some d => isPySpace d
  | none => b

theorem endFlag_cons (b : Bool) (x : Char) (xs : List Char) :
    endFlag b (x :: xs) = endFlag (isPySpace x) xs := by
  cases xs with
  | nil => rfl
  | cons y ys =>
    show (match (x :: y :: ys).getLast? with
        | some d => isPySpace d
        | none => b) = _
    rw [List.getLast?_cons_cons]
    rfl

theorem collapseAux_append_singleton : ∀ (xs : List Char) (b : Bool) (c : Char),
    collapseAux b (xs ++ [c]) = collapseAux b xs ++ collapseAux (endFlag b xs) [c] := by
  intro xs
  induction xs with
  | nil => intro b c; rfl
  | cons x xs ih =>
    intro b c
    rw [List.cons_append]
    by_cases hx : isPySpace x = true
    · cases b with
      | true =>
        rw [collapseAux_cons_ws_true (xs ++ [c]) hx, collapseAux_cons_ws_true xs hx,
          ih true c, endFlag_cons, hx]
      | false =>
        rw [collapseAux_cons_ws_false (xs ++ [c]) hx, collapseAux_cons_ws_false xs hx,
          ih true c, endFlag_cons, hx, List.cons_append]
    · have hx' : isPySpace x = false := Bool.of_not_eq_true hx
      rw [collapseAux_cons_nws b (xs ++ [c]) hx', collapseAux_cons_nws b xs hx',
        ih false c, endFlag_cons, hx', List.cons_append]

theorem endFlag_false_reverse (cs : List Char) :
    endFlag false cs.reverse =
      (match cs.head? with
        | some d => isPySpace d
        | none => false) := by
  unfold endFlag
  rw [List.getLast?_reverse]

theorem collapseWs_reverse : ∀ l : List Char,
    collapseWs l.reverse = (collapseWs l).reverse := by
  intro l
  induction l with
  | nil => rfl
  | cons c cs ih =>
    show collapseAux false (c :: cs).reverse = (collapseAux false (c :: cs)).reverse
    rw [List.reverse_cons, collapseAux_append_singleton cs.reverse false c]
    have ihw : collapseAux false cs.reverse = (collapseAux false cs).reverse := ih
    rw [ihw, endFlag_false_reverse]
    by_cases hc : isPySpace c = true
    · rw [collapseAux_cons_ws_false cs hc, List.reverse_cons]
      cases cs with
      | nil =>
        simp [collapseAux, hc]
      | cons d cs' =>
        show (collapseAux false (d :: cs')).reverse ++ collapseAux (isPySpace d) [c] =
          (collapseAux true (d :: cs')).reverse ++ [' ']
        by_cases hd : isPySpace d = true
        · rw [hd, collapseAux_cons_ws_false cs' hd, collapseAux_cons_ws_true cs' hd,
            List.reverse_cons]
          show _ ++ collapseAux true [c] = _
          rw [show collapseAux true [c] = ([] : List Char) from by simp [collapseAux, hc],
            List.append_nil]
        · have hd' : isPySpace d = false := Bool.of_not_eq_true hd
          rw [hd', collapseAux_cons_nws false cs' hd', collapseAux_cons_nws true cs' hd']
          show _ ++ collapseAux false [c] = _
          rw [show collapseAux false [c] = [' '] from by simp [collapseAux, hc]]
    · have hc' : isPySpace c = false := Bool.of_not_eq_true hc
      rw [collapseAux_cons_nws false cs hc', List.reverse_cons]
      have hsingle : ∀ e : Bool, collapseAux e [c] = [c] := by
        intro e
        cases e <;> simp [collapseAux, hc']
      cases cs with
      | nil => rw [hsingle]
      | cons d cs' => rw [hsingle]

end Typewriter

namespace Typewriter

/-! ### Strip/collapse interaction -/

/-- Heads of collapser output in skip mode are never whitespace. -/
theorem collapseAux_true_head : ∀ (l : List Char) (d : Char),
    (collapseAux true l).head? = some d → isPySpace d = false := by
  intro l
  induction l with
  | nil => intro d hd; cases hd
  | cons c cs ih =>
    intro d hd
    by_cases hc : isPySpace c = true
    · rw [collapseAux_cons_ws_true cs hc] at hd
      exact ih d hd
    · have hc' : isPySpace c = false := Bool.of_not_eq_true hc
      rw [collapseAux_cons_nws true cs hc'] at hd
      cases hd
      exact hc'

theorem dropWhile_eq_self_of_head {x : List Char}
    (h : ∀ d, x.head? = some d → isPySpace d = false) :
    x.dropWhile isPySpace = x := by
  cases x with
  | nil => rfl
  | cons c cs =>
    rw [List.dropWhile_cons, if_neg (by rw [h c rfl]; exact Bool.false_ne_true)]

theorem dropWhile_collapseAux_false : ∀ cs : List Char,
    (collapseAux false cs).dropWhile isPySpace = collapseAux true cs := by
  intro cs
  cases cs with
  | nil => rfl
  | cons d cs' =>
    by_cases hd : isPySpace d = true
    · rw [collapseAux_cons_ws_false cs' hd, collapseAux_cons_ws_true cs' hd,
        List.dropWhile_cons, if_pos (by decide)]
      exact dropWhile_eq_self_of_head (collapseAux_true_head cs')
    · have hd' : isPySpace d = false := Bool.of_not_eq_true hd
      rw [collapseAux_cons_nws false cs' hd', collapseAux_cons_nws true cs' hd',
        List.dropWhile_cons, if_neg (by rw [hd']; exact Bool.false_ne_true)]

/-- The collapser commutes with stripping leading whitespace. -/
theorem collapseWs_dropWhile : ∀ l : List Char,
    collapseWs (l.dropWhile isPySpace) = (collapseWs l).dropWhile isPySpace := by
  intro l
  unfold collapseWs
  induction l with
  | nil => rfl
  | cons c cs ih =>
    by_cases hc : isPySpace c = true
    · rw [List.dropWhile_cons, if_pos hc, ih, dropWhile_collapseAux_false cs,
        collapseAux_cons_ws_false cs hc, List.dropWhile_cons, if_pos (by decide),
        dropWhile_eq_self_of_head (collapseAux_true_head cs)]
    · have hc' : isPySpace c = false := Bool.of_not_eq_true hc
      rw [List.dropWhile_cons, if_neg (by rw [hc']; exact Bool.false_ne_true),
        collapseAux_cons_nws false cs hc', List.dropWhile_cons,
        if_neg (by rw [hc']; exact Bool.false_ne_true)]

/-- Strip the trailing whitespace run. -/
def trailStrip (l : List Char) : List Char :=
  (l.reverse.dropWhile isPySpace).reverse

theorem stripL_eq_trailStrip (l : List Char) :
    stripL l = trailStrip (l.dropWhile isPySpace) := rfl

theorem trailStrip_prefix_self (y : List Char) : trailStrip y <+: y := by
  have h := List.dropWhile_suffix (l := y.reverse) isPySpace
  have h2 := List.reverse_prefix.mpr h
  rwa [List.reverse_reverse] at h2

theorem dropWhile_head (l : List Char) :
    ∀ d, (l.dropWhile isPySpace).head? = some d → isPySpace d = false := by
  induction l with
  | nil => intro d hd; cases hd
  | cons c cs ih =>
    intro d hd
    by_cases hc : isPySpace c = true
    · rw [List.dropWhile_cons, if_pos hc] at hd
      exact ih d hd
    · have hc' : isPySpace c = false := Bool.of_not_eq_true hc
      rw [List.dropWhile_cons, if_neg (by rw [hc']; exact Bool.false_ne_true)] at hd
      cases hd
      exact hc'

theorem dropWhile_idem (l : List Char) :
    (l.dropWhile isPySpace).dropWhile isPySpace = l.dropWhile isPySpace :=
  dropWhile_eq_self_of_head (dropWhile_head l)

theorem trailStrip_trailStrip (y : List Char) :
    trailStrip (trailStrip y) = trailStrip y := by
  unfold trailStrip
  rw [List.reverse_reverse, dropWhile_idem]

/-- The collapser commutes with stripping trailing whitespace. -/
theorem collapseWs_trailStrip (x : List Char) :
    collapseWs (trailStrip x) = trailStrip (collapseWs x) := by
  unfold trailStrip
  rw [collapseWs_reverse (x.reverse.dropWhile isPySpace), collapseWs_dropWhile x.reverse,
    collapseWs_reverse x]

theorem prefix_head {x y : List Char} (hp : x <+: y)
    (h : ∀ d, y.head? = some d → isPySpace d = false) :
    ∀ d, x.head? = some d → isPySpace d = false := by
  obtain ⟨t, rfl⟩ := hp
  cases x with
  | nil => intro d hd; cases hd
  | cons a xs =>
    intro d hd
    have had : a = d := by injection hd
    subst had
    exact h a rfl

/-- Core idempotence identity: stripping and collapsing a second time changes
nothing. -/
theorem stripL_collapseWs_idem (l : List Char) :
    stripL (collapseWs (stripL (collapseWs l))) = stripL (collapseWs l) := by
  rw [stripL_eq_trailStrip (collapseWs l)]
  rw [show stripL (collapseWs (trailStrip ((collapseWs l).dropWhile isPySpace))) =
      trailStrip ((collapseWs (trailStrip ((collapseWs l).dropWhile isPySpace))).dropWhile
        isPySpace) from stripL_eq_trailStrip _]
  rw [collapseWs_trailStrip, collapseWs_dropWhile, collapseWs_idem]
  rw [dropWhile_eq_self_of_head
      (prefix_head (trailStrip_prefix_self ((collapseWs l).dropWhile isPySpace))
        (dropWhile_head (collapseWs l)))]
  rw [trailStrip_trailStrip]

end Typewriter

namespace Typewriter

theorem NoDigit_collapseWs {l : List Char} (h : NoDigit l) : NoDigit (collapseWs l) := by
  intro c hc
  rcases collapseAux_mem false l c hc with h2 | h2
  · exact h c h2
  · rw [h2]
    decide

theorem NoLt_collapseWs {l : List Char} (h : NoLt l) : NoLt (collapseWs l) := by
  intro c hc
  rcases collapseAux_mem false l c hc with h2 | h2
  · exact h c h2
  · rw [h2]
    decide

theorem NoDigit_stripL {l : List Char} (h : NoDigit l) : NoDigit (stripL l) :=
  fun c hc => h c (stripL_mem hc)

theorem NoLt_stripL {l : List Char} (h : NoLt l) : NoLt (stripL l) :=
  fun c hc => h c (stripL_mem hc)

/-- On digit-free, `'<'`-free input every substitution stage is the identity,
so the sanitizer reduces to collapse-and-strip, which is idempotent. -/
theorem clean_idem {l : List Char} (h1 : NoDigit l) (h2 : NoLt l) :
    clean_quote_text (clean_quote_text l) = clean_quote_text l := by
  by_cases hl : l = []
  · subst hl
    rfl
  · have stages : clean_quote_text l = stripL (collapseWs l) := by
      rw [clean_quote_text, if_neg hl, subTags_id h2, subTs_id h1, subAmPm_id h1, subStart_id h1]
    rw [stages]
    have h1y : NoDigit (stripL (collapseWs l)) := NoDigit_stripL (NoDigit_collapseWs h1)
    have h2y : NoLt (stripL (collapseWs l)) := NoLt_stripL (NoLt_collapseWs h2)
    by_cases hyn : stripL (collapseWs l) = []
    · rw [hyn]
      rfl
    · rw [clean_quote_text, if_neg hyn, subTags_id h2y, subTs_id h1y, subAmPm_id h1y,
        subStart_id h1y]
      exact stripL_collapseWs_idem l

/-- C4 (amended): `clean_quote_text` is not idempotent in general (adjacent
whitespace-separated timestamps defeat it, see the counterexample), but it is
idempotent on every input containing no decimal digit and no `'<'` — inputs
on which the tag- and timestamp-removal stages cannot fire — where it reduces
to whitespace collapsing plus stripping. -/
theorem C4_amended_sanitizer_idempotent_on_digit_free_text :
    ∀ l : List Char, (∀ c ∈ l, c.isDigit = false) → (∀ c ∈ l, c ≠ '<') →
      clean_quote_text (clean_quote_text l) = clean_quote_text l :=
  fun _ h1 h2 => clean_idem h1 h2

/-- Witness for C4 (amended) on a concrete digit-free string with irregular
whitespace. -/
theorem C4_amended_sanitizer_idempotent_on_digit_free_text_witness :
    (∀ c ∈ "  hello   world ".data, c.isDigit = false) ∧
    (∀ c ∈ "  hello   world ".data, c ≠ '<') ∧
    clean_quote_text (clean_quote_text "  hello   world ".data) =
      clean_quote_text "  hello   world ".data :=
  ⟨by decide, by decide,
    C4_amended_sanitizer_idempotent_on_digit_free_text "  hello   world ".data
      (by decide) (by decide)⟩

end Typewriter

namespace Typewriter

/-! ## The layout engine: `textwrap.fill(text, LINE_LENGTH)`

`_render_typewriter` and `_render_clock_display` wrap text with CPython's
`textwrap.fill(text, 45)` (default `TextWrapper` options: `expand_tabs`,
`replace_whitespace`, `drop_whitespace`, `break_long_words`,
`break_on_hyphens` all at their defaults).  The model below follows
`TextWrapper._munge_whitespace`, `_handle_long_word` and `_wrap_chunks`
faithfully; the chunk splitter models `wordsep_re` restricted to whitespace
boundaries (the regex's additional subdivision of hyphenated compounds and
em-dashes is not modelled, so the packing lemmas are proved for arbitrary
chunk lists). -/

/-- Python `str.expandtabs(8)` with column tracking: `'\n'`/`'\r'` reset the
column, a tab advances to the next multiple of 8. -/
def expandTabs : Nat → List Char → List Char
  | _, [] => []
  | col, c :: cs =>
    if c = '\t' then List.replicate (8 - col % 8) ' ' ++ expandTabs (col + (8 - col % 8)) cs
    else if c = '\n' || c = '\r' then c :: expandTabs 0 cs
    else c :: expandTabs (col + 1) cs

/-- `TextWrapper._munge_whitespace`: expand tabs, then translate every
whitespace character to `' '`. -/
def munge (l : List Char) : List Char :=
  (expandTabs 0 l).map (fun c => if isPySpace c then ' ' else c)

/-- Chunk splitter: maximal runs of whitespace alternate with maximal runs of
non-whitespace (fuelled; the fuel is the input length). -/
def splitChunksF : Nat → List Char → List (List Char)
  | 0, _ => []
  | _ + 1, [] => []
  | f + 1, c :: cs =>
    (c :: cs.takeWhile (fun d => isPySpace d == isPySpace c)) ::
      splitChunksF f (cs.dropWhile (fun d => isPySpace d == isPySpace c))

/-- `TextWrapper._split` on munged text (whitespace/word runs). -/
def splitChunks (l : List Char) : List (List Char) :=
  splitChunksF l.length l

/-- Total character count of a chunk list. -/
def sumLen (cs : List (List Char)) : Nat :=
  (cs.map List.length).sum

/-- The greedy inner loop of `_wrap_chunks`: move chunks onto the current line
while they fit within `width`. -/
def takeFit (width : Nat) : Nat → List (List Char) → List (List Char) × List (List Char)
  | _, [] => ([], [])
  | curLen, c :: cs =>
    if curLen + c.length ≤ width then
      ((c :: (takeFit width (curLen + c.length) cs).1), (takeFit width (curLen + c.length) cs).2)
    else ([], c :: cs)

/-- Python `str.rfind('-')`: index of the last `'-'`, if any. -/
def lastHyphenPos : List Char → Option Nat
  | [] => none
  | c :: cs =>
    match lastHyphenPos cs with
    | some j => some (j + 1)
    | none => if c = '-' then some 0 else none

/-- The split point chosen by `_handle_long_word` with `break_long_words`:
break at `space_left`, or just after the last hyphen inside the available
space when `break_on_hyphens` applies (`hyphen > 0` and some non-hyphen
character precedes it). -/
def breakEnd (spaceLeft : Nat) (chunk : List Char) : Nat :=
  if chunk.length > spaceLeft then
    match lastHyphenPos (chunk.take spaceLeft) with
    | some h =>
      if 0 < h ∧ (chunk.take h).any (fun c => !(c = '-')) then h + 1 else spaceLeft
    | none => spaceLeft
  else spaceLeft

/-- `TextWrapper._handle_long_word`: put `chunk[:end]` on the current line and
leave `chunk[end:]` as the next chunk. -/
def handleLongWord (width curLen : Nat) (chunk : List Char) : List Char × List Char :=
  (chunk.take (breakEnd (if width < 1 then 1 else width - curLen) chunk),
    chunk.drop (breakEnd (if width < 1 then 1 else width - curLen) chunk))

/-- `chunk.strip() == ''`: the chunk is pure whitespace. -/
def isBlankChunk (c : List Char) : Bool :=
  c.all isPySpace

/-- `if cur_line and cur_line[-1].strip() == '': del cur_line[-1]`. -/
def dropTrailBlank (cs : List (List Char)) : List (List Char) :=
  match cs.getLast? with
  | some c => if isBlankChunk c then cs.dropLast else cs
  | none => cs

/-- `if self.drop_whitespace and chunks[-1].strip() == '' and lines: del
chunks[-1]` — drop one leading whitespace chunk unless building the first
line. -/
def dropLeadBlank (first : Bool) (chunks : List (List Char)) : List (List Char) :=
  match chunks with
  | c :: rest => if !first && isBlankChunk c then rest else chunks
  | [] => []

/-- Finish a line whose greedy part is `line0` given the remaining chunks:
break a long word if the next chunk exceeds the width, then drop a trailing
whitespace chunk; returns the finished line's chunks and the remaining
chunks. -/
def finishLine (width : Nat) (line0 : List (List Char)) :
    List (List Char) → List (List Char) × List (List Char)
  | c :: rest1 =>
    if c.length > width then
      (dropTrailBlank (line0 ++ [(handleLongWord width (sumLen line0) c).1]),
        (handleLongWord width (sumLen line0) c).2 :: rest1)
    else (dropTrailBlank line0, c :: rest1)
  | [] => (dropTrailBlank line0, [])

/-- Build one line from the (already lead-stripped) chunks: pack greedily,
then finish. -/
def buildLine (width : Nat) (chunks1 : List (List Char)) :
    List (List Char) × List (List Char) :=
  finishLine width (takeFit width 0 chunks1).1 (takeFit width 0 chunks1).2

/-- One iteration of the `while chunks` loop of `_wrap_chunks`. -/
def wrapStep (width : Nat) (first : Bool) (chunks : List (List Char)) :
    List (List Char) × List (List Char) :=
  buildLine width (dropLeadBlank first chunks)

/-- The `while chunks` loop of `_wrap_chunks` (fuelled): emit the joined line
when non-empty; the `first` flag tracks whether any line has been emitted
(CPython's `and lines` test). -/
def wrapLoop (width : Nat) : Nat → Bool → List (List Char) → List (List Char)
  | 0, _, _ => []
  | _ + 1, _, [] => []
  | f + 1, first, c :: rest =>
    if (wrapStep width first (c :: rest)).1.isEmpty then
      wrapLoop width f first (wrapStep width first (c :: rest)).2
    else
      (wrapStep width first (c :: rest)).1.flatten ::
        wrapLoop width f false (wrapStep width first (c :: rest)).2

/-- The lines produced by `textwrap.fill(text, LINE_LENGTH)` (the fill result
is these lines joined with newlines). -/
def fillLines (l : List Char) : List (List Char) :=
  wrapLoop LINE_LENGTH (2 * (munge l).length + 2) true (splitChunks (munge l))

end Typewriter

namespace Typewriter

/-! ### No produced line exceeds the column width -/

theorem takeFit_sumLen_le : ∀ (l : List (List Char)) (width cur : Nat), cur ≤ width →
    cur + sumLen (takeFit width cur l).1 ≤ width := by
  intro l
  induction l with
  | nil =>
    intro width cur h
    simpa [takeFit, sumLen] using h
  | cons c cs ih =>
    intro width cur h
    by_cases hfit : cur + c.length ≤ width
    · rw [takeFit, if_pos hfit]
      have := ih width (cur + c.length) hfit
      simp only [sumLen, List.map_cons, List.sum_cons] at *
      omega
    · rw [takeFit, if_neg hfit]
      simpa [sumLen] using h

theorem lastHyphenPos_lt : ∀ (l : List Char) (h : Nat), lastHyphenPos l = some h → h < l.length := by
  intro l
  induction l with
  | nil => intro h hh; cases hh
  | cons c cs ih =>
    intro h hh
    rw [lastHyphenPos] at hh
    cases hlh : lastHyphenPos cs with
    | some j =>
      rw [hlh] at hh
      cases hh
      have := ih j hlh
      simp only [List.length_cons]
      omega
    | none =>
      rw [hlh] at hh
      by_cases hc : c = '-'
      · rw [if_pos hc] at hh
        cases hh
        simp
      · rw [if_neg hc] at hh
        cases hh

theorem breakEnd_le (spaceLeft : Nat) (chunk : List Char) :
    breakEnd spaceLeft chunk ≤ spaceLeft := by
  rw [breakEnd]
  split
  · split
    · rename_i h heq
      have hb := lastHyphenPos_lt _ h heq
      rw [List.length_take] at hb
      split
      · omega
      · omega
    · omega
  · omega

theorem sumLen_dropLast_le (cs : List (List Char)) : sumLen cs.dropLast ≤ sumLen cs :=
  List.Sublist.sum_le_sum ((List.dropLast_sublist cs).map List.length)
    (fun a _ => Nat.zero_le a)

theorem sumLen_dropTrailBlank_le (cs : List (List Char)) :
    sumLen (dropTrailBlank cs) ≤ sumLen cs := by
  rw [dropTrailBlank]
  cases cs.getLast? with
  | none => exact Nat.le_refl _
  | some c =>
    show sumLen (if isBlankChunk c = true then cs.dropLast else cs) ≤ sumLen cs
    by_cases hb : isBlankChunk c = true
    · rw [if_pos hb]
      exact sumLen_dropLast_le cs
    · rw [if_neg hb]

theorem sumLen_append (a b : List (List Char)) : sumLen (a ++ b) = sumLen a + sumLen b := by
  simp [sumLen]

theorem finishLine_sumLen_le (width : Nat) (hw : 1 ≤ width) (line0 : List (List Char))
    (rest : List (List Char)) (hline0 : sumLen line0 ≤ width) :
    sumLen (finishLine width line0 rest).1 ≤ width := by
  cases rest with
  | nil =>
    rw [finishLine]
    exact Nat.le_trans (sumLen_dropTrailBlank_le _) hline0
  | cons c rest1 =>
    rw [finishLine]
    by_cases hlong : c.length > width
    · rw [if_pos hlong]
      refine Nat.le_trans (sumLen_dropTrailBlank_le _) ?_
      rw [sumLen_append]
      have hfrag : ((handleLongWord width (sumLen line0) c).1).length ≤
          breakEnd (width - sumLen line0) c := by
        rw [handleLongWord, if_neg (by omega)]
        simp only [List.length_take]
        omega
      have hbe := breakEnd_le (width - sumLen line0) c
      have hone : sumLen [(handleLongWord width (sumLen line0) c).1] =
          ((handleLongWord width (sumLen line0) c).1).length := by
        simp [sumLen]
      omega
    · rw [if_neg hlong]
      exact Nat.le_trans (sumLen_dropTrailBlank_le _) hline0

theorem wrapStep_sumLen_le (width : Nat) (hw : 1 ≤ width) (first : Bool)
    (chunks : List (List Char)) : sumLen (wrapStep width first chunks).1 ≤ width := by
  rw [wrapStep, buildLine]
  refine finishLine_sumLen_le width hw _ _ ?_
  have := takeFit_sumLen_le (dropLeadBlank first chunks) width 0 (Nat.zero_le _)
  omega

theorem wrapLoop_line_le : ∀ (f width : Nat), 1 ≤ width → ∀ (first : Bool)
    (chunks : List (List Char)) (line : List Char),
    line ∈ wrapLoop width f first chunks → line.length ≤ width := by
  intro f
  induction f with
  | zero => intro width _ first chunks line h; cases h
  | succ f ih =>
    intro width hw first chunks line h
    cases chunks with
    | nil => cases h
    | cons c rest =>
      rw [wrapLoop] at h
      by_cases hempty : (wrapStep width first (c :: rest)).1.isEmpty = true
      · rw [if_pos hempty] at h
        exact ih width hw first _ line h
      · rw [if_neg hempty] at h
        rcases List.mem_cons.mp h with h2 | h2
        · rw [h2, List.length_flatten]
          exact wrapStep_sumLen_le width hw first (c :: rest)
        · exact ih width hw false _ line h2

end Typewriter

namespace Typewriter

set_option maxRecDepth 4096 in
/-- Counterexample to C6 as stated: a 50-character word wrapped at width 45 is
SPLIT across two lines of 45 and 5 characters (CPython's default
`break_long_words`), not placed on its own (overlong) line: no produced line
equals the word. -/
theorem C6_counterexample_long_word_split_not_own_line :
    fillLines (List.replicate 50 'a') =
      [List.replicate 45 'a', List.replicate 5 'a'] ∧
    List.replicate 50 'a' ∉ fillLines (List.replicate 50 'a') := by
  have h : fillLines (List.replicate 50 'a') =
      [List.replicate 45 'a', List.replicate 5 'a'] := by decide
  refine ⟨h, ?_⟩
  rw [h]
  decide

/-- C6 (amended): wrapping is greedy at the fixed 45-character column and no
produced line ever exceeds 45 characters — including when a single word
exceeds the column width, because such a word is split across lines
(`break_long_words`) rather than placed alone on an overlong line.  The bound
holds for the packer over an arbitrary chunk list (so it is independent of
how the splitter divides words) and in particular for `fillLines`. -/
theorem C6_amended_no_line_exceeds_width :
    (∀ (f width : Nat), 1 ≤ width → ∀ (first : Bool) (chunks : List (List Char))
      (line : List Char), line ∈ wrapLoop width f first chunks → line.length ≤ width) ∧
    (∀ (x line : List Char), line ∈ fillLines x → line.length ≤ LINE_LENGTH) := by
  refine ⟨wrapLoop_line_le, ?_⟩
  intro x line h
  exact wrapLoop_line_le _ LINE_LENGTH (by decide) true _ line h

set_option maxRecDepth 8192 in
/-- Witness for C6 (amended): a concrete line of concrete wrapped text. -/
theorem C6_amended_no_line_exceeds_width_witness :
    "hello world".data ∈ fillLines "hello world".data ∧
    ("hello world".data).length ≤ LINE_LENGTH :=
  ⟨by decide,
    C6_amended_no_line_exceeds_width.2 "hello world".data "hello world".data (by decide)⟩

end Typewriter
